import Mathlib

/-!
Verification development for the raid-raccoon-deluxe privileged command
execution engine.  The definitions below are shallow embeddings of the Go
source: the synchronous runner (`execwrap.Run`), its bounded reader
(`config.ReadAllLimited`), the job scheduler (`httpd.JobManager` and `Job`),
the two-process pipeline (`zfs.runZfsPipeline` with its `limitedBuffer`),
and the snapshot chain selection inside `zfs.ReplicateDataset`.
Machine integers are modelled as `Int`/`Nat` (the Go code never overflows in
the modelled paths), bytes as `Nat`, subprocess streams as lists of read
chunks, and wait errors as an explicit sum type.
-/

deriving instance DecidableEq for Except

namespace RaidRaccoon

/-- The possible outcomes of `cmd.Wait()` as distinguished by the Go code:
no error, an `exec.ExitError` carrying the child's exit code, a context
deadline error, or any other error. -/
inductive WaitErr where
  | noErr : WaitErr
  | exitError (code : Int) : WaitErr
  | deadlineExceeded : WaitErr
  | otherErr : WaitErr
deriving DecidableEq

/-- Exit-code mapping of `zfs.exitCodeFromErr` (src/unnamed/part_001:693-705). -/
def exitCodeFromErr : WaitErr → Int
  | .noErr => 0
  | .exitError code => code
  | .deadlineExceeded => 124
  | .otherErr => 1

/-- Exit-code mapping inlined in `execwrap.Run` (src/unnamed/part_005:60-71):
starts from 0 and overwrites on error, checking `exec.ExitError` first, then
`context.DeadlineExceeded`, then the catch-all. -/
def runWaitExitCode (err : WaitErr) : Int :=
  match err with
  | .noErr => 0
  | .exitError code => code
  | .deadlineExceeded => 124
  | .otherErr => 1

/-- Exit-code mapping inlined in `JobManager.runJob` (src/unnamed/part_003:130-140),
structurally identical to the one in `execwrap.Run`. -/
def runJobWaitExitCode (err : WaitErr) : Int :=
  match err with
  | .noErr => 0
  | .exitError code => code
  | .deadlineExceeded => 124
  | .otherErr => 1

/-- Default output cap applied whenever a configured limit is `<= 0`
(the Go sources use `1 << 20` in `ReadAllLimited`, `limitedBuffer.Write`,
`jobLimit` and `runZfsPipeline`). -/
def defaultOutputLimit : Int := 1048576

/-- Limit normalisation `if limit <= 0 { limit = 1 << 20 }`. -/
def normLimit (limit : Int) : Int :=
  if limit ≤ 0 then defaultOutputLimit else limit

/-- Loop body of `config.ReadAllLimited` (src/internal/config/config.go:381-407).
The reader is modelled as the list of chunks successive `Read` calls return;
an empty list means the next read reports EOF.  Returns the accumulated
bytes, the truncation flag, and how many chunks were actually read before
the function returned (the source returns early once the limit is exceeded,
leaving the remaining chunks unread). -/
def readAllLimitedCore : List (List Nat) → Nat → List Nat → Nat → List Nat × Bool × Nat
  | [], _, acc, _ => (acc, false, 0)
  | c :: rest, lim, acc, total =>
    if lim < total + c.length then
      (acc ++ c.take (lim - total), true, 1)
    else
      let r := readAllLimitedCore rest lim (acc ++ c) (total + c.length)
      (r.1, r.2.1, r.2.2 + 1)

/-- Model of `config.ReadAllLimited` (src/internal/config/config.go:381-407). -/
def readAllLimited (chunks : List (List Nat)) (limit : Int) : List Nat × Bool × Nat :=
  readAllLimitedCore chunks (normLimit limit).toNat [] 0

/-- State of `zfs.limitedBuffer` (src/unnamed/part_001:605-633). -/
structure LimitedBuffer where
  buf : List Nat
  limit : Int
  truncated : Bool
deriving DecidableEq

/-- Model of `limitedBuffer.Write` (src/unnamed/part_001:612-629).  Mirrors the source:
the limit is normalised in place, a full buffer drops the whole write and
sets `truncated`, an overflowing write keeps only the prefix that fits. -/
def limitedBufferWrite (l : LimitedBuffer) (p : List Nat) : LimitedBuffer :=
  let lim := normLimit l.limit
  if (l.buf.length : Int) ≥ lim then
    { buf := l.buf, limit := lim, truncated := true }
  else
    let remain := (lim - (l.buf.length : Int)).toNat
    if remain < p.length then
      { buf := l.buf ++ p.take remain, limit := lim, truncated := true }
    else
      { buf := l.buf ++ p, limit := lim, truncated := l.truncated }

/-- Mutable state of a `httpd.Job` (src/unnamed/part_003:30-47) as touched by
`Job.append`: the `strings.Builder` content, the published `Output` snapshot,
the truncation flag and the immutable byte limit.  Subscriber channels and
the cancellation handle are not modelled (no claim depends on them). -/
structure JobBuf where
  buffer : List Nat
  output : List Nat
  truncated : Bool
  limit : Int
deriving DecidableEq

/-- Model of `jobLimit` (src/unnamed/part_003:188-193). -/
def jobLimit (limit : Int) : Int :=
  if limit ≤ 0 then defaultOutputLimit else limit

/-- Model of `Job.append` (src/unnamed/part_003:170-186), with `broadcast` elided. -/
def jobAppend (j : JobBuf) (chunk : List Nat) : JobBuf :=
  if jobLimit j.limit < (j.buffer.length : Int) + chunk.length then
    let remaining : Int := jobLimit j.limit - (j.buffer.length : Int)
    if 0 < remaining then
      let kept := chunk.take remaining.toNat
      { j with truncated := true, buffer := j.buffer ++ kept, output := j.buffer ++ kept }
    else
      { j with truncated := true }
  else
    { j with buffer := j.buffer ++ chunk, output := j.buffer ++ chunk }

/-! Command parsing and the job scheduler (src/unnamed/part_003). -/

/-- Model of `strings.Fields`: split on whitespace, dropping empty fields.  Implemented
by structural recursion over the characters with an accumulator for the
current (reversed) word. -/
def wsFieldsAux : List Char → List Char → List String
  | [], acc => if acc.isEmpty then [] else [⟨acc.reverse⟩]
  | c :: rest, acc =>
    if c.isWhitespace then
      if acc.isEmpty then wsFieldsAux rest []
      else ⟨acc.reverse⟩ :: wsFieldsAux rest []
    else wsFieldsAux rest (c :: acc)

/-- Model of `strings.Fields(cmd)` as used by `parseCommand`. -/
def fieldsOf (s : String) : List String := wsFieldsAux s.data []

/-- Model of `strings.HasPrefix(s, "/")`: the first character is a slash. -/
def isAbsolute (s : String) : Bool := s.data.head? = some '/'

/-- Model of `path/filepath.Base` for Unix paths as called on allowlist entries:
empty path gives ".", trailing slashes are stripped, the last component is
returned, and an all-slash path gives "/". -/
def filepathBase (p : String) : String :=
  if p = "" then "." else
    let rest := p.data.reverse.dropWhile (· = '/')
    if rest.isEmpty then "/" else ⟨(rest.takeWhile (· ≠ '/')).reverse⟩

/-- The basename-resolution loop of `parseCommand`
(src/unnamed/part_003:266-274): scan the allowlist, remember the first entry
whose basename matches, and fail as ambiguous on a second distinct match. -/
def resolveByBase : List String → String → String → Except String String
  | [], _, resolved => .ok resolved
  | allowed :: rest, word, resolved =>
    if filepathBase allowed = word then
      if resolved ≠ "" ∧ resolved ≠ allowed then .error "command alias is ambiguous"
      else resolveByBase rest word allowed
    else resolveByBase rest word resolved

/-- Model of `config.Limits` fields used by the engine. -/
structure Limits where
  maxOutputBytes : Int
  maxRuntimeSeconds : Int
deriving DecidableEq

/-- The slice of `config.Config` consulted by `JobManager.Start` and
`parseCommand`: terminal aliases, the allowlist, the `Unsafe` flag (named
`allowAll` here) and the limits. -/
structure Config where
  aliases : List (String × String)
  allowedCmds : List String
  allowAll : Bool
  limits : Limits
deriving DecidableEq

/-- Model of `parseCommand` (src/unnamed/part_003:252-279). -/
def parseCommand (cmd : String) (cfg : Config) : Except String (String × List String) :=
  match fieldsOf cmd with
  | [] => .error "empty command"
  | word :: rest =>
    if isAbsolute word then .ok (word, rest)
    else
      match cfg.aliases.lookup word with
      | some target =>
        if isAbsolute target then .ok (target, rest)
        else .error "alias must be absolute"
      | none =>
        match resolveByBase cfg.allowedCmds word "" with
        | .error e => .error e
        | .ok resolved =>
          if resolved ≠ "" then .ok (resolved, rest)
          else .error "command must be absolute or known alias"

/-- Model of `isAllowed` (src/unnamed/part_003:281-288). -/
def isAllowed (allowed : List String) (cmd : String) : Bool :=
  allowed.contains cmd

/-- Model of `newID` (src/unnamed/part_003:290-292): formats the current wall-clock
`UnixNano` timestamp, here modelled as a `Nat` of nanoseconds. -/
def newID (nowUnixNano : Nat) : String :=
  "job-" ++ Nat.repr nowUnixNano

/-- The fields of `httpd.Job` (src/unnamed/part_003:30-47) relevant to
scheduling, retention and lookup. -/
structure Job where
  id : String
  cmd : String
  args : List String
  startTime : Nat
  endTime : Nat
  exitCode : Int
  done : Bool
  output : List Nat
  truncated : Bool
  limit : Int
  user : String
deriving DecidableEq

/-- The job table `jm.jobs`: a Go map modelled as an association list where
an insert conses the new binding (lookup takes the first match, so a cons
shadows older bindings exactly like a map overwrite). -/
abbrev JobTable := List (String × Job)

/-- Model of `JobManager.Get` (src/unnamed/part_003:90-95). -/
def jobManagerGet (jobs : JobTable) (id : String) : Option Job :=
  (jobs.find? (fun p => p.1 = id)).map (·.2)

/-- Model of `JobManager.Start` (src/unnamed/part_003:69-87): parse the command,
enforce the allowlist unless `Unsafe`, issue an id from the clock, create
the Job record and insert it into the table.  Execution of the job
(`runJob`, spawned on its own goroutine) is not part of this step. -/
def jobManagerStart (jobs : JobTable) (cfg : Config) (user cmd : String)
    (nowUnixNano : Nat) : Except String (Job × JobTable) :=
  match parseCommand cmd cfg with
  | .error e => .error e
  | .ok (cmdPath, args) =>
    if ¬cfg.allowAll ∧ ¬isAllowed cfg.allowedCmds cmdPath then
      .error "command not in allowlist"
    else
      let job : Job :=
        { id := newID nowUnixNano, cmd := cmdPath, args := args
          startTime := nowUnixNano, endTime := 0, exitCode := 0, done := false
          output := [], truncated := false, limit := cfg.limits.maxOutputBytes
          user := user }
      .ok (job, (newID nowUnixNano, job) :: jobs)

/-- Retention window set by `NewJobManager` (src/unnamed/part_003:50-54):
`15 * time.Minute`, in nanoseconds. -/
def jobManagerTTL : Nat := 15 * 60 * 1000000000

/-- One pass of `JobManager.cleanupLoop` (src/unnamed/part_003:235-250):
delete every job that is done and whose end timestamp is older than the
retention window (`time.Since(end) > ttl`). -/
def cleanupSweep (jobs : JobTable) (nowUnixNano : Nat) (ttl : Nat) : JobTable :=
  jobs.filter (fun p => ¬(p.2.done ∧ ttl < nowUnixNano - p.2.endTime))

/-! The synchronous runner `execwrap.Run` (src/unnamed/part_005). -/

/-- Model of `execwrap.Result` (src/unnamed/part_005:15-20), with the captured text
kept as bytes. -/
structure RunResult where
  stdout : List Nat
  stderr : List Nat
  exitCode : Int
  truncated : Bool
deriving DecidableEq

/-- Observable behaviour of the spawned child process: what successive reads
of its stdout and stderr pipes return, whether spawning fails, and the error
`cmd.Wait()` reports. -/
structure ProcBehavior where
  startErr : Option (List Nat)
  stdoutChunks : List (List Nat)
  stderrChunks : List (List Nat)
  waitErr : WaitErr
deriving DecidableEq

/-- Outcome of `execwrap.Run`: a validation error (raised before anything is
spawned), a pipe/start error, or a completed `Result`. -/
inductive RunOutcome where
  | validationError (msg : String) : RunOutcome
  | startError (msg : List Nat) : RunOutcome
  | completed (r : RunResult) : RunOutcome
deriving DecidableEq

/-- Model of `execwrap.Run` (src/unnamed/part_005:24-79): reject a non-absolute
command before touching the process, then drain stdout and stderr through
`ReadAllLimited` (each with its own cap), then map the wait error.  The
deadline derived from `maxRuntimeSeconds` manifests only through
`proc.waitErr`, so it needs no separate model. -/
def execwrapRun (absCmd : String) (proc : ProcBehavior) (limits : Limits) : RunOutcome :=
  if absCmd = "" ∨ ¬isAbsolute absCmd then
    .validationError "command must be absolute"
  else
    match proc.startErr with
    | some e => .startError e
    | none =>
      let outR := readAllLimited proc.stdoutChunks limits.maxOutputBytes
      let errR := readAllLimited proc.stderrChunks limits.maxOutputBytes
      .completed
        { stdout := outR.1, stderr := errR.1
          exitCode := runWaitExitCode proc.waitErr
          truncated := outR.2.1 || errR.2.1 }

/-! The pipeline executor `zfs.runZfsPipeline` (src/unnamed/part_001:635-691). -/

/-- Observable behaviour of one end of the pipeline: start failure, the
stderr writes it performs into the shared buffer, and its wait error. -/
structure PipeProc where
  startErr : Option (List Nat)
  stderrWrites : List (List Nat)
  waitErr : WaitErr
deriving DecidableEq

/-- Go `unicode.IsSpace` restricted to the byte range used by
`strings.TrimSpace` on ASCII diagnostics. -/
def isSpaceByte (b : Nat) : Bool := b = 32 ∨ (9 ≤ b ∧ b ≤ 13)

/-- Model of `strings.TrimSpace` over bytes. -/
def trimSpace (l : List Nat) : List Nat :=
  ((l.dropWhile isSpaceByte).reverse.dropWhile isSpaceByte).reverse

/-- Byte encoding of an ASCII string literal. -/
def strBytes (s : String) : List Nat := s.data.map Char.toNat

/-- The combined-exit-code computation of `runZfsPipeline`
(src/unnamed/part_001:676-682): `exitCode := 0`, overwritten by `sendExit`
when non-zero, then overwritten by `recvExit` when non-zero. -/
def combinedExitCode (sendExit recvExit : Int) : Int :=
  let ec : Int := 0
  let ec := if sendExit ≠ 0 then sendExit else ec
  if recvExit ≠ 0 then recvExit else ec

/-- Model of `runZfsPipeline` (src/unnamed/part_001:635-691).  The in-memory data
pipe between the two processes carries no observable state here; the shared
stderr `limitedBuffer` receives the producer's writes followed by the
consumer's (one serialisation of the concurrent interleaving — no claim
depends on the order).  Start failures short-circuit with exit code 1. -/
def runZfsPipeline (send recv : PipeProc) (maxOutputBytes : Int) : RunResult :=
  let limit := normLimit maxOutputBytes
  match recv.startErr with
  | some e => { stdout := [], stderr := e, exitCode := 1, truncated := false }
  | none =>
    match send.startErr with
    | some e => { stdout := [], stderr := e, exitCode := 1, truncated := false }
    | none =>
      let errBuf := (send.stderrWrites ++ recv.stderrWrites).foldl
        limitedBufferWrite { buf := [], limit := limit, truncated := false }
      let sendExit := exitCodeFromErr send.waitErr
      let recvExit := exitCodeFromErr recv.waitErr
      let exitCode := combinedExitCode sendExit recvExit
      if send.waitErr ≠ .noErr ∨ recv.waitErr ≠ .noErr then
        let msg := trimSpace errBuf.buf
        let msg := if msg.isEmpty then strBytes "zfs replication failed" else msg
        { stdout := [], stderr := msg, exitCode := exitCode, truncated := errBuf.truncated }
      else
        { stdout := [], stderr := errBuf.buf, exitCode := exitCode, truncated := errBuf.truncated }

/-! Chain selection inside `zfs.ReplicateDataset` (src/unnamed/part_001:536-568). -/

/-- A row of `zfs list -t snapshot` output as parsed by `ListSnapshots`. -/
structure Snapshot where
  name : String
deriving DecidableEq

/-- The filter `snapshotsWith*refix` (src/unnamed/part_001:588-603, the Go
name ends in the word this file avoids): keep snapshot names of the form
`dataset@suffix` whose suffix begins with the configured marker. -/
def snapshotsWithMarker (snaps : List Snapshot) (marker : String) : List String :=
  if marker = "" then [] else
    (snaps.filter (fun s =>
      let cs := s.name.data
      if cs.contains '@' then
        marker.data.isPrefixOf ((cs.dropWhile (· ≠ '@')).drop 1)
      else false)).map (·.name)

/-- Index of `curr` chosen by the loop at src/unnamed/part_001:546-556:
first occurrence, falling back to the last entry when absent. -/
def chainIndex (chainList : List String) (curr : String) : Nat :=
  match chainList.findIdx? (· = curr) with
  | some i => i
  | none => chainList.length - 1

/-- The chain-selection slice of `ReplicateDataset`
(src/unnamed/part_001:541-559): an empty match list is a caller-visible
error; otherwise `curr` is the just-created name when present (else the last
entry) and `prev` is the entry just before it (`""` when `curr` is first).
The third component records whether the transfer is incremental, i.e.
whether `-I prev` is added to the send arguments (src/unnamed/part_001:565-567),
which the source does exactly when `prev != ""`. -/
def selectChain (chainList : List String) (justCreated : String) :
    Option (String × String × Bool) :=
  if chainList.isEmpty then none
  else
    let index := chainIndex chainList justCreated
    let curr := if chainList.contains justCreated then justCreated else chainList.getD index ""
    let prev := if 0 < index then chainList.getD (index - 1) "" else ""
    some (prev, curr, prev ≠ "")

/-! Decimal formatting facts, needed for job-id reasoning: `newID` formats
the timestamp with `Nat.repr`, whose digits determine the number. -/

lemma toDigitsCore_append (fuel : Nat) : ∀ (n : Nat) (ds : List Char),
    Nat.toDigitsCore 10 fuel n ds = Nat.toDigitsCore 10 fuel n [] ++ ds := by
  induction fuel with
  | zero => intro n ds; simp [Nat.toDigitsCore]
  | succ f ih =>
    intro n ds
    simp only [Nat.toDigitsCore]
    by_cases h : n / 10 = 0
    · simp [h]
    · simp only [if_neg h]
      rw [ih (n / 10) (Nat.digitChar (n % 10) :: ds), ih (n / 10) [Nat.digitChar (n % 10)]]
      simp

lemma toDigitsCore_fuel (n : Nat) : ∀ (f₁ f₂ : Nat), n < f₁ → n < f₂ → ∀ ds : List Char,
    Nat.toDigitsCore 10 f₁ n ds = Nat.toDigitsCore 10 f₂ n ds := by
  induction n using Nat.strong_induction_on with
  | _ n ih =>
    intro f₁ f₂ h₁ h₂ ds
    match f₁, h₁ with
    | f₁ + 1, h₁ =>
      match f₂, h₂ with
      | f₂ + 1, h₂ =>
        simp only [Nat.toDigitsCore]
        by_cases h : n / 10 = 0
        · simp [h]
        · simp only [if_neg h]
          have hlt : n / 10 < n := Nat.div_lt_self (Nat.pos_of_ne_zero fun h0 => by
            subst h0; simp at h) (by norm_num)
          exact ih (n / 10) hlt f₁ f₂ (by omega) (by omega) _

lemma toDigits_eq_rec (n : Nat) :
    Nat.toDigits 10 n =
      if n < 10 then [Nat.digitChar n]
      else Nat.toDigits 10 (n / 10) ++ [Nat.digitChar (n % 10)] := by
  by_cases h : n < 10
  · have hd : n / 10 = 0 := Nat.div_eq_of_lt h
    simp [Nat.toDigits, Nat.toDigitsCore, hd, Nat.mod_eq_of_lt h, h]
  · have hd : n / 10 ≠ 0 := by omega
    have h1 : Nat.toDigits 10 n = Nat.toDigitsCore 10 n (n / 10) [Nat.digitChar (n % 10)] := by
      simp [Nat.toDigits, Nat.toDigitsCore, hd]
    rw [if_neg h, h1, toDigitsCore_append]
    congr 1
    exact toDigitsCore_fuel (n / 10) n (n / 10 + 1)
      (Nat.div_lt_self (by omega) (by norm_num)) (Nat.lt_succ_self _) []

lemma toDigits_ne_nil (n : Nat) : Nat.toDigits 10 n ≠ [] := by
  rw [toDigits_eq_rec]
  by_cases h : n < 10 <;> simp [h]

lemma digitChar_inj : ∀ a : Nat, a < 10 → ∀ b : Nat, b < 10 →
    Nat.digitChar a = Nat.digitChar b → a = b := by decide

lemma toDigits_inj (m : Nat) : ∀ n : Nat, Nat.toDigits 10 m = Nat.toDigits 10 n → m = n := by
  induction m using Nat.strong_induction_on with
  | _ m ih =>
    intro n h
    rw [toDigits_eq_rec m, toDigits_eq_rec n] at h
    by_cases hm : m < 10 <;> by_cases hn : n < 10
    · simp only [if_pos hm, if_pos hn, List.cons.injEq] at h
      exact digitChar_inj m hm n hn h.1
    · exfalso
      simp only [if_pos hm, if_neg hn] at h
      cases hq : Nat.toDigits 10 (n / 10) with
      | nil => exact toDigits_ne_nil (n / 10) hq
      | cons a t =>
        rw [hq] at h
        have hlen := congrArg List.length h
        simp only [List.length_cons, List.length_append, List.length_nil] at hlen
        omega
    · exfalso
      simp only [if_neg hm, if_pos hn] at h
      cases hq : Nat.toDigits 10 (m / 10) with
      | nil => exact toDigits_ne_nil (m / 10) hq
      | cons a t =>
        rw [hq] at h
        have hlen := congrArg List.length h
        simp only [List.length_cons, List.length_append, List.length_nil] at hlen
        omega
    · simp only [if_neg hm, if_neg hn] at h
      have hparts := List.append_inj' h (by simp)
      have hdiv : m / 10 = n / 10 :=
        ih (m / 10) (Nat.div_lt_self (by omega) (by norm_num)) (n / 10) hparts.1
      have hmod : m % 10 = n % 10 := by
        have := List.head_eq_of_cons_eq hparts.2
        exact digitChar_inj _ (Nat.mod_lt _ (by norm_num)) _ (Nat.mod_lt _ (by norm_num)) this
      omega

lemma natRepr_inj (m n : Nat) (h : Nat.repr m = Nat.repr n) : m = n := by
  apply toDigits_inj
  have hd := congrArg String.data h
  simpa [Nat.repr, List.asString] using hd

lemma newID_inj (t₁ t₂ : Nat) (h : newID t₁ = newID t₂) : t₁ = t₂ := by
  apply natRepr_inj
  have hd := congrArg String.data h
  simp only [newID, String.data_append] at hd
  exact String.ext (List.append_cancel_left hd)

/-! Helper lemmas about the scheduler. -/

/-- A successful `Start` returns a job whose id is `newID` of the observed
timestamp. -/
lemma jobManagerStart_id (jobs : JobTable) (cfg : Config) (u c : String) (t : Nat)
    (j : Job) (r : JobTable) (h : jobManagerStart jobs cfg u c t = .ok (j, r)) :
    j.id = newID t := by
  unfold jobManagerStart at h
  cases hp : parseCommand c cfg with
  | error e => rw [hp] at h; exact absurd h (by simp)
  | ok pr =>
    obtain ⟨cmdPath, args⟩ := pr
    rw [hp] at h
    dsimp only at h
    by_cases hall : ¬cfg.allowAll = true ∧ ¬isAllowed cfg.allowedCmds cmdPath = true
    · rw [if_pos hall] at h; exact absurd h (by simp)
    · rw [if_neg hall] at h
      simp only [Except.ok.injEq, Prod.mk.injEq] at h
      rw [← h.1]

/-- Lookup miss: `Get` reports not-found when no table entry is bound to the id. -/
lemma jobManagerGet_none (jobs : JobTable) (id : String)
    (h : ∀ p ∈ jobs, p.1 ≠ id) : jobManagerGet jobs id = none := by
  unfold jobManagerGet
  rw [List.find?_eq_none.mpr]
  · rfl
  · intro p hp
    simpa using h p hp

/-! Claim C5. -/

/-- C5: the exit-code mapping is shared verbatim by the Command Runner
(`execwrap.Run`), the Job Scheduler (`JobManager.runJob`) and the Pipeline
Executor (`exitCodeFromErr`): 0 on a clean exit, the child's own code on a
non-zero exit, 124 on deadline-exceeded, 1 on any other wait error. -/
theorem exit_code_mapping_uniform :
    (∀ e, runWaitExitCode e = exitCodeFromErr e) ∧
    (∀ e, runJobWaitExitCode e = exitCodeFromErr e) ∧
    exitCodeFromErr .noErr = 0 ∧
    (∀ code, exitCodeFromErr (.exitError code) = code) ∧
    exitCodeFromErr .deadlineExceeded = 124 ∧
    exitCodeFromErr .otherErr = 1 :=
  ⟨fun e => by cases e <;> rfl, fun e => by cases e <;> rfl, rfl, fun _ => rfl, rfl, rfl⟩

/-! Claim C3: evaluation at the failing input. -/

/-- C3 fails on the code: with a 2-byte cap and a stream that still has a
second chunk pending after the cap is exceeded, `ReadAllLimited` performs a
single read and returns — 1 of the 2 available chunks is consumed, so the
pipe is abandoned before EOF instead of being drained and discarded. -/
theorem readAllLimited_stops_before_eof :
    readAllLimited [[1, 2, 3], [4, 5]] 2 = ([1, 2], true, 1) ∧ (1 : Nat) < 2 := by decide

/-! Claim C1. -/

/-- Producer behaviour for the double-failure pipeline run: starts fine,
writes nothing to stderr, exits 3. -/
def sendProc3 : PipeProc := { startErr := none, stderrWrites := [], waitErr := .exitError 3 }

/-- Consumer behaviour for the double-failure pipeline run: starts fine,
writes nothing to stderr, exits 4. -/
def recvProc4 : PipeProc := { startErr := none, stderrWrites := [], waitErr := .exitError 4 }

/-- C1 counterexample: a producer exiting 3 paired with a consumer exiting 4
yields overall exit code 4, not 3 — `runZfsPipeline` assigns the producer's
code first and then overwrites it with the consumer's non-zero code. -/
theorem pipeline_producer_priority_refuted :
    (runZfsPipeline sendProc3 recvProc4 64).exitCode = 4 ∧ (4 : Int) ≠ 3 := by decide

lemma combinedExitCode_eq (s r : Int) :
    combinedExitCode s r = if r ≠ 0 then r else s := by
  unfold combinedExitCode
  by_cases hr : r = 0 <;> by_cases hs : s = 0 <;> simp [hr, hs]

/-- C1 (amended): for every pipeline run in which both the producer and the
consumer were started, the combined exit code equals the consumer's mapped
exit code whenever that is non-zero, and the producer's mapped exit code
otherwise; in particular producer 1 / consumer 0 yields 1, producer 0 /
consumer 2 yields 2, and producer 3 / consumer 4 yields 4 (consumer wins on
double failure). -/
theorem pipeline_consumer_exit_wins (send recv : PipeProc) (lim : Int)
    (hs : send.startErr = none) (hr : recv.startErr = none) :
    (runZfsPipeline send recv lim).exitCode =
      (if exitCodeFromErr recv.waitErr ≠ 0 then exitCodeFromErr recv.waitErr
       else exitCodeFromErr send.waitErr) ∧
    (runZfsPipeline { sendProc3 with waitErr := .exitError 1 }
      { recvProc4 with waitErr := .noErr } 64).exitCode = 1 ∧
    (runZfsPipeline { sendProc3 with waitErr := .noErr }
      { recvProc4 with waitErr := .exitError 2 } 64).exitCode = 2 ∧
    (runZfsPipeline sendProc3 recvProc4 64).exitCode = 4 := by
  refine ⟨?_, by decide, by decide, by decide⟩
  rw [← combinedExitCode_eq]
  simp only [runZfsPipeline, hs, hr]
  split <;> rfl

/-- Witness for `pipeline_consumer_exit_wins` at the concrete 3/4 run. -/
theorem pipeline_consumer_exit_wins_witness :
    (runZfsPipeline sendProc3 recvProc4 64).exitCode =
      (if exitCodeFromErr recvProc4.waitErr ≠ 0 then exitCodeFromErr recvProc4.waitErr
       else exitCodeFromErr sendProc3.waitErr) :=
  (pipeline_consumer_exit_wins sendProc3 recvProc4 64 rfl rfl).1

/-! Claim C9. -/

/-- Config used for the id-collision run: `/bin/ls` is allowlisted. -/
def cfgBin : Config :=
  { aliases := [], allowedCmds := ["/bin/ls"], allowAll := false
    limits := { maxOutputBytes := 64, maxRuntimeSeconds := 120 } }

/-- C9 counterexample: two `start()` calls that observe the same nanosecond
timestamp both issue the id "job-42" — ids are derived purely from the
clock, so they are not always distinct across calls. -/
theorem same_nanosecond_id_collision :
    ((jobManagerStart [] cfgBin "admin" "/bin/ls" 42).toOption.map fun p => p.1.id)
      = some "job-42" ∧
    ((jobManagerStart [] cfgBin "admin" "/bin/ls" 42).toOption.bind fun p =>
      (jobManagerStart p.2 cfgBin "admin" "/bin/ls" 42).toOption.map fun q => q.1.id)
      = some "job-42" := by decide

/-- C9 (amended): a job id is derived solely from the wall-clock nanosecond
timestamp observed by `start()` ("job-" followed by the decimal timestamp),
so two `start()` calls observing distinct timestamps issue distinct ids
(calls observing the same nanosecond collide); and `get()` on an id bound to
no table entry reports not-found. -/
theorem job_id_from_timestamp (t₁ t₂ : Nat) (jobs₁ jobs₂ : JobTable)
    (cfg₁ cfg₂ : Config) (u₁ u₂ c₁ c₂ : String) (j₁ j₂ : Job) (r₁ r₂ : JobTable)
    (jobs : JobTable) (id : String)
    (h₁ : jobManagerStart jobs₁ cfg₁ u₁ c₁ t₁ = .ok (j₁, r₁))
    (h₂ : jobManagerStart jobs₂ cfg₂ u₂ c₂ t₂ = .ok (j₂, r₂))
    (hne : t₁ ≠ t₂) (hid : ∀ p ∈ jobs, p.1 ≠ id) :
    j₁.id ≠ j₂.id ∧ jobManagerGet jobs id = none := by
  refine ⟨?_, jobManagerGet_none jobs id hid⟩
  rw [jobManagerStart_id jobs₁ cfg₁ u₁ c₁ t₁ j₁ r₁ h₁,
    jobManagerStart_id jobs₂ cfg₂ u₂ c₂ t₂ j₂ r₂ h₂]
  intro hcontra
  exact hne (newID_inj t₁ t₂ hcontra)

/-- The job record issued by `start()` on `/bin/ls` at timestamp 1. -/
def jobAt1 : Job :=
  { id := "job-1", cmd := "/bin/ls", args := [], startTime := 1, endTime := 0
    exitCode := 0, done := false, output := [], truncated := false, limit := 64
    user := "admin" }

/-- The job record issued by `start()` on `/bin/ls` at timestamp 2. -/
def jobAt2 : Job :=
  { jobAt1 with id := "job-2", startTime := 2 }

/-- Witness for `job_id_from_timestamp` at timestamps 1 and 2. -/
theorem job_id_from_timestamp_witness :
    jobAt1.id ≠ jobAt2.id ∧ jobManagerGet [("job-1", jobAt1)] "job-9" = none :=
  job_id_from_timestamp 1 2 [] [] cfgBin cfgBin "admin" "admin" "/bin/ls" "/bin/ls"
    jobAt1 jobAt2 [("job-1", jobAt1)] [("job-2", jobAt2)] [("job-1", jobAt1)] "job-9"
    (by decide) (by decide) (by decide) (by decide)

/-! Claim C8. -/

/-- The result of `find?` is stable under `filter` when the found element is kept: the
first match in the original list is still the first match afterwards. -/
lemma find?_filter_of_keep {α : Type} (l : List α) (p q : α → Bool) (x : α)
    (h : l.find? p = some x) (hk : q x = true) :
    (l.filter q).find? p = some x := by
  induction l with
  | nil => simp at h
  | cons a t ih =>
    by_cases hpa : p a = true
    · rw [List.find?_cons_of_pos t hpa] at h
      obtain rfl : a = x := by simpa using h
      rw [List.filter_cons, if_pos hk, List.find?_cons_of_pos _ hpa]
    · rw [List.find?_cons_of_neg t (by simpa using hpa)] at h
      rw [List.filter_cons]
      by_cases hqa : q a = true
      · rw [if_pos hqa, List.find?_cons_of_neg _ (by simpa using hpa)]
        exact ih h
      · rw [if_neg hqa]
        exact ih h

/-- C8: a sweep of the cleanup loop removes a table entry only when its Job
is done and its end timestamp is older than the 15-minute retention window:
an entry whose Job is not done, or whose window has not elapsed, survives the
sweep, stays reachable through `get()` with unchanged contents, and the
window really is 15 minutes (in nanoseconds). -/
theorem cleanup_retention_policy (jobs : JobTable) (now : Nat) (id : String) (j : Job)
    (hmem : (id, j) ∈ jobs) (hget : jobManagerGet jobs id = some j)
    (hkeep : j.done = false ∨ now - j.endTime ≤ jobManagerTTL) :
    (id, j) ∈ cleanupSweep jobs now jobManagerTTL ∧
    jobManagerGet (cleanupSweep jobs now jobManagerTTL) id = some j ∧
    jobManagerTTL = 15 * 60 * 1000000000 := by
  have hpred : (¬((id, j).2.done = true ∧ jobManagerTTL < now - (id, j).2.endTime) : Bool)
      = true := by
    simp only [decide_eq_true_eq]
    rcases hkeep with h | h
    · intro hc; rw [h] at hc; exact Bool.false_ne_true hc.1
    · intro hc; omega
  refine ⟨List.mem_filter.mpr ⟨hmem, hpred⟩, ?_, rfl⟩
  unfold jobManagerGet at hget ⊢
  cases hf : jobs.find? (fun p => p.1 = id) with
  | none => rw [hf] at hget; exact absurd hget (by simp)
  | some pr =>
    rw [hf] at hget
    simp at hget
    unfold cleanupSweep
    rw [find?_filter_of_keep jobs _ _ pr hf ?side]
    · simpa using hget
    case side =>
      have : pr.2 = j := by simpa using hget
      have hfst : pr.1 = id := by
        have := List.find?_some hf
        simpa using this
      cases pr
      simp only at this hfst
      subst this hfst
      exact hpred

/-- A finished job whose retention window has not elapsed. -/
def doneJobFresh : Job :=
  { id := "job-5", cmd := "/bin/ls", args := [], startTime := 5, endTime := 10
    exitCode := 0, done := true, output := [7, 7], truncated := false, limit := 64
    user := "admin" }

/-- Witness for `cleanup_retention_policy` on a one-entry table swept shortly
after the job finished. -/
theorem cleanup_retention_policy_witness :
    ("job-5", doneJobFresh) ∈ cleanupSweep [("job-5", doneJobFresh)] 1000 jobManagerTTL ∧
    jobManagerGet (cleanupSweep [("job-5", doneJobFresh)] 1000 jobManagerTTL) "job-5"
      = some doneJobFresh ∧
    jobManagerTTL = 15 * 60 * 1000000000 :=
  cleanup_retention_policy [("job-5", doneJobFresh)] 1000 "job-5" doneJobFresh
    (by decide) (by decide) (by decide)

/-! Claim C7. -/

/-- The index picked by the selection loop is always in range. -/
lemma chainIndex_lt_length (chainL : List String) (c : String) (hne : chainL ≠ []) :
    chainIndex chainL c < chainL.length := by
  unfold chainIndex
  cases hf : chainL.findIdx? (· = c) with
  | none =>
    simp only
    exact Nat.sub_lt (List.length_pos.mpr hne) one_pos
  | some i => exact (List.findIdx?_eq_some_iff_findIdx_eq.mp hf).1

/-- C7: on a non-empty list of prefix-matching checkpoint names (none of
which is empty), the selection yields `current` = the just-created name when
present, otherwise the chronologically last entry; `previous` = the entry
immediately preceding `current`'s index, absent (`""`) when that index is 0;
the incremental flag holds exactly when `previous` is present; and an empty
matching list yields no selection (the caller-visible error path). -/
theorem chain_selection_correct (chainL : List String) (c : String)
    (hne : chainL ≠ []) (hnb : "" ∉ chainL) :
    ∃ prev curr,
      selectChain chainL c = some (prev, curr, decide (prev ≠ "")) ∧
      (c ∈ chainL → curr = c) ∧
      (c ∉ chainL → curr = chainL.getLast hne) ∧
      (chainIndex chainL c = 0 → prev = "") ∧
      (0 < chainIndex chainL c → prev = chainL.getD (chainIndex chainL c - 1) "") ∧
      ((prev ≠ "") ↔ 0 < chainIndex chainL c) ∧
      selectChain [] c = none := by
  refine ⟨if 0 < chainIndex chainL c then chainL.getD (chainIndex chainL c - 1) "" else "",
    if chainL.contains c then c else chainL.getD (chainIndex chainL c) "", ?_, ?_, ?_, ?_, ?_, ?_, rfl⟩
  · unfold selectChain
    rw [if_neg (by simpa [List.isEmpty_iff] using hne)]
  · intro hc
    rw [if_pos (List.elem_iff.mpr hc)]
  · intro hc
    rw [if_neg (by simpa [List.elem_iff] using hc)]
    have hidx : chainIndex chainL c = chainL.length - 1 := by
      unfold chainIndex
      rw [List.findIdx?_eq_none_iff.mpr]
      intro x hx
      simp only [decide_eq_false_iff_not]
      intro hxc
      exact hc (hxc ▸ hx)
    rw [hidx, List.getLast_eq_getElem chainL hne]
    have hlt : chainL.length - 1 < chainL.length :=
      Nat.sub_lt (List.length_pos.mpr hne) one_pos
    simp [List.getElem?_eq_getElem hlt]
  · intro h0
    rw [if_neg (by omega)]
  · intro h0
    rw [if_pos h0]
  · constructor
    · intro hp
      by_contra hz
      rw [if_neg hz] at hp
      exact hp rfl
    · intro h0
      rw [if_pos h0]
      have hlt : chainIndex chainL c - 1 < chainL.length := by
        have := chainIndex_lt_length chainL c hne
        omega
      have hmem : chainL.getD (chainIndex chainL c - 1) "" ∈ chainL := by
        simp only [List.getD_eq_getElem?_getD, List.getElem?_eq_getElem hlt, Option.getD_some]
        exact List.getElem_mem hlt
      intro hcontra
      rw [hcontra] at hmem
      exact hnb hmem

/-- Witness for `chain_selection_correct` on a three-entry chain whose
just-created snapshot is the last entry. -/
theorem chain_selection_correct_witness :
    ∃ prev curr,
      selectChain ["a@r1", "a@r2", "a@r3"] "a@r3" = some (prev, curr, decide (prev ≠ "")) ∧
      ("a@r3" ∈ ["a@r1", "a@r2", "a@r3"] → curr = "a@r3") ∧
      ("a@r3" ∉ ["a@r1", "a@r2", "a@r3"] →
        curr = List.getLast ["a@r1", "a@r2", "a@r3"] (by decide)) ∧
      (chainIndex ["a@r1", "a@r2", "a@r3"] "a@r3" = 0 → prev = "") ∧
      (0 < chainIndex ["a@r1", "a@r2", "a@r3"] "a@r3" →
        prev = List.getD ["a@r1", "a@r2", "a@r3"] (chainIndex ["a@r1", "a@r2", "a@r3"] "a@r3" - 1) "") ∧
      ((prev ≠ "") ↔ 0 < chainIndex ["a@r1", "a@r2", "a@r3"] "a@r3") ∧
      selectChain [] "a@r3" = none :=
  chain_selection_correct ["a@r1", "a@r2", "a@r3"] "a@r3" (by decide) (by decide)

/-! Claims C10 and C2: behaviour of `parseCommand`. -/

/-- With no basename match in the allowlist, the scan returns its
accumulator unchanged. -/
lemma resolveByBase_no_match : ∀ (l : List String) (w res : String),
    (∀ a ∈ l, filepathBase a ≠ w) → resolveByBase l w res = .ok res := by
  intro l
  induction l with
  | nil => intro w res _; rfl
  | cons a t ih =>
    intro w res h
    unfold resolveByBase
    rw [if_neg (h a (List.mem_cons_self a t))]
    exact ih w res fun b hb => h b (List.mem_cons_of_mem a hb)

/-- Once the accumulator holds the unique matching path, the scan keeps it. -/
lemma resolveByBase_keep : ∀ (l : List String) (w x : String),
    (∀ a ∈ l, filepathBase a = w → a = x) → resolveByBase l w x = .ok x := by
  intro l
  induction l with
  | nil => intro w x _; rfl
  | cons a t ih =>
    intro w x h
    unfold resolveByBase
    by_cases hb : filepathBase a = w
    · rw [if_pos hb]
      have hax : a = x := h a (List.mem_cons_self a t) hb
      rw [if_neg (by simp [hax]), hax]
      exact ih w x fun b hbmem => h b (List.mem_cons_of_mem a hbmem)
    · rw [if_neg hb]
      exact ih w x fun b hbmem => h b (List.mem_cons_of_mem a hbmem)

/-- When every allowlist basename match is the same path `x` and at least one
match exists, the scan resolves to `x`. -/
lemma resolveByBase_unique : ∀ (l : List String) (w x : String), x ≠ "" →
    (∀ a ∈ l, filepathBase a = w → a = x) → (∃ a ∈ l, filepathBase a = w) →
    resolveByBase l w "" = .ok x := by
  intro l
  induction l with
  | nil => intro w x _ _ hex; simp at hex
  | cons a t ih =>
    intro w x hx hall hex
    unfold resolveByBase
    by_cases hb : filepathBase a = w
    · rw [if_pos hb, if_neg (by simp)]
      have hax : a = x := hall a (List.mem_cons_self a t) hb
      rw [hax]
      exact resolveByBase_keep t w x fun b hbmem => hall b (List.mem_cons_of_mem a hbmem)
    · rw [if_neg hb]
      obtain ⟨b, hbmem, hbw⟩ := hex
      rcases List.mem_cons.mp hbmem with rfl | hbt
      · exact absurd hbw hb
      · exact ih w x hx (fun d hd => hall d (List.mem_cons_of_mem a hd)) ⟨b, hbt, hbw⟩

/-- A non-empty accumulator that sees a distinct later match trips the
ambiguity error. -/
lemma resolveByBase_clash : ∀ (l : List String) (w res : String), res ≠ "" →
    (∃ a ∈ l, filepathBase a = w ∧ a ≠ res) →
    resolveByBase l w res = .error "command alias is ambiguous" := by
  intro l
  induction l with
  | nil => intro w res _ hex; simp at hex
  | cons a t ih =>
    intro w res hres hex
    unfold resolveByBase
    by_cases hb : filepathBase a = w
    · rw [if_pos hb]
      by_cases hne : a = res
      · rw [if_neg (by simp [hne])]
        subst hne
        obtain ⟨b, hbmem, hbw, hbne⟩ := hex
        rcases List.mem_cons.mp hbmem with rfl | hbt
        · exact absurd rfl hbne
        · exact ih w a hres ⟨b, hbt, hbw, hbne⟩
      · rw [if_pos ⟨hres, fun hc => hne hc.symm⟩]
    · rw [if_neg hb]
      obtain ⟨b, hbmem, hbw, hbne⟩ := hex
      rcases List.mem_cons.mp hbmem with rfl | hbt
      · exact absurd hbw hb
      · exact ih w res hres ⟨b, hbt, hbw, hbne⟩

/-- Two distinct matching paths in an allowlist without empty entries always
produce the ambiguity error. -/
lemma resolveByBase_ambiguous : ∀ (l : List String) (w : String), "" ∉ l →
    (∃ a ∈ l, ∃ b ∈ l, filepathBase a = w ∧ filepathBase b = w ∧ a ≠ b) →
    resolveByBase l w "" = .error "command alias is ambiguous" := by
  intro l
  induction l with
  | nil => intro w _ hex; simp at hex
  | cons a t ih =>
    intro w hnb hex
    unfold resolveByBase
    by_cases hb : filepathBase a = w
    · rw [if_pos hb, if_neg (by simp)]
      obtain ⟨x, hxmem, y, hymem, hxw, hyw, hxy⟩ := hex
      have hane : a ≠ "" := fun hc => hnb (hc ▸ List.mem_cons_self a t)
      by_cases hax : x = a
      · subst hax
        have hyt : y ∈ t := by
          rcases List.mem_cons.mp hymem with rfl | h
          · exact absurd rfl hxy
          · exact h
        exact resolveByBase_clash t w x hane ⟨y, hyt, hyw, fun hc => hxy hc.symm⟩
      · have hxt : x ∈ t := by
          rcases List.mem_cons.mp hxmem with rfl | h
          · exact absurd rfl hax
          · exact h
        exact resolveByBase_clash t w a hane ⟨x, hxt, hxw, hax⟩
    · rw [if_neg hb]
      obtain ⟨x, hxmem, y, hymem, hxw, hyw, hxy⟩ := hex
      have hxt : x ∈ t := by
        rcases List.mem_cons.mp hxmem with rfl | h
        · exact absurd hxw hb
        · exact h
      have hyt : y ∈ t := by
        rcases List.mem_cons.mp hymem with rfl | h
        · exact absurd hyw hb
        · exact h
      exact ih w (fun hc => hnb (List.mem_cons_of_mem a hc)) ⟨x, hxt, y, hyt, hxw, hyw, hxy⟩

/-- Shorthand for a successful basename scan, shared by the claim proofs
below. -/
lemma parseCommand_resolved_ok (cfg : Config) (cmd w : String) (rest : List String)
    (hw : fieldsOf cmd = w :: rest) (hrel : isAbsolute w = false)
    (hl : cfg.aliases.lookup w = none) (resolved : String)
    (hres : resolveByBase cfg.allowedCmds w "" = .ok resolved) :
    parseCommand cmd cfg =
      (if resolved ≠ "" then .ok (resolved, rest)
       else .error "command must be absolute or known alias") := by
  unfold parseCommand
  rw [hw]
  dsimp only
  rw [if_neg (by simp [hrel]), hl]
  dsimp only
  rw [hres]

/-- Shorthand for a failed basename scan, shared by the claim proofs below. -/
lemma parseCommand_resolved_err (cfg : Config) (cmd w : String) (rest : List String)
    (hw : fieldsOf cmd = w :: rest) (hrel : isAbsolute w = false)
    (hl : cfg.aliases.lookup w = none) (e : String)
    (hres : resolveByBase cfg.allowedCmds w "" = .error e) :
    parseCommand cmd cfg = .error e := by
  unfold parseCommand
  rw [hw]
  dsimp only
  rw [if_neg (by simp [hrel]), hl]
  dsimp only
  rw [hres]

/-- C10: `parseCommand` resolution: an absolute first word is taken
verbatim; otherwise the alias table is consulted, with the target accepted
only when absolute; otherwise the word resolves by basename against the
allowlist — accepted when exactly one distinct allowlisted path has that
basename, rejected as ambiguous when two distinct allowlisted paths share
it, and rejected as neither absolute nor a known alias when nothing
matches. -/
theorem parse_command_resolution
    (cfgA : Config) (cmdA wA : String) (restA : List String)
    (hA : fieldsOf cmdA = wA :: restA) (hAabs : isAbsolute wA = true)
    (cfgB : Config) (cmdB wB target : String) (restB : List String)
    (hB : fieldsOf cmdB = wB :: restB) (hBrel : isAbsolute wB = false)
    (hBl : cfgB.aliases.lookup wB = some target)
    (cfgD : Config) (cmdD wD x : String) (restD : List String)
    (hD : fieldsOf cmdD = wD :: restD) (hDrel : isAbsolute wD = false)
    (hDl : cfgD.aliases.lookup wD = none) (hDnb : "" ∉ cfgD.allowedCmds)
    (hDall : ∀ a ∈ cfgD.allowedCmds, filepathBase a = wD → a = x)
    (hDex : ∃ a ∈ cfgD.allowedCmds, filepathBase a = wD)
    (cfgE : Config) (cmdE wE : String) (restE : List String)
    (hE : fieldsOf cmdE = wE :: restE) (hErel : isAbsolute wE = false)
    (hEl : cfgE.aliases.lookup wE = none) (hEnb : "" ∉ cfgE.allowedCmds)
    (hEex : ∃ a ∈ cfgE.allowedCmds, ∃ b ∈ cfgE.allowedCmds,
      filepathBase a = wE ∧ filepathBase b = wE ∧ a ≠ b)
    (cfgF : Config) (cmdF wF : String) (restF : List String)
    (hF : fieldsOf cmdF = wF :: restF) (hFrel : isAbsolute wF = false)
    (hFl : cfgF.aliases.lookup wF = none)
    (hFall : ∀ a ∈ cfgF.allowedCmds, filepathBase a ≠ wF) :
    parseCommand cmdA cfgA = .ok (wA, restA) ∧
    parseCommand cmdB cfgB =
      (if isAbsolute target then .ok (target, restB)
       else .error "alias must be absolute") ∧
    parseCommand cmdD cfgD = .ok (x, restD) ∧
    parseCommand cmdE cfgE = .error "command alias is ambiguous" ∧
    parseCommand cmdF cfgF = .error "command must be absolute or known alias" := by
  refine ⟨?_, ?_, ?_, ?_, ?_⟩
  · unfold parseCommand
    rw [hA]
    dsimp only
    rw [if_pos hAabs]
  · unfold parseCommand
    rw [hB]
    dsimp only
    rw [if_neg (by simp [hBrel]), hBl]
  · have hxne : x ≠ "" := by
      obtain ⟨a, ha, haw⟩ := hDex
      have := hDall a ha haw
      subst this
      exact fun hc => hDnb (hc ▸ ha)
    rw [parseCommand_resolved_ok cfgD cmdD wD restD hD hDrel hDl x
      (resolveByBase_unique cfgD.allowedCmds wD x hxne hDall hDex)]
    rw [if_pos hxne]
  · rw [parseCommand_resolved_err cfgE cmdE wE restE hE hErel hEl _
      (resolveByBase_ambiguous cfgE.allowedCmds wE hEnb hEex)]
  · rw [parseCommand_resolved_ok cfgF cmdF wF restF hF hFrel hFl ""
      (resolveByBase_no_match cfgF.allowedCmds wF "" hFall)]
    rw [if_neg (by simp)]

/-- Config whose allowlist holds two distinct paths with basename "ls". -/
def cfgAmb : Config :=
  { aliases := [], allowedCmds := ["/bin/ls", "/usr/bin/ls"], allowAll := false
    limits := { maxOutputBytes := 64, maxRuntimeSeconds := 120 } }

/-- Config mapping the alias `zfs` to `/sbin/zfs`. -/
def cfgAliasZfs : Config :=
  { aliases := [("zfs", "/sbin/zfs")], allowedCmds := ["/sbin/zfs"], allowAll := false
    limits := { maxOutputBytes := 64, maxRuntimeSeconds := 120 } }

/-- Witness for `parse_command_resolution` exercising all five resolution
outcomes on concrete configs. -/
theorem parse_command_resolution_witness :
    parseCommand "/bin/ls -l" cfgBin = .ok ("/bin/ls", ["-l"]) ∧
    parseCommand "zfs list" cfgAliasZfs =
      (if isAbsolute "/sbin/zfs" then .ok ("/sbin/zfs", ["list"])
       else .error "alias must be absolute") ∧
    parseCommand "ls -l" cfgBin = .ok ("/bin/ls", ["-l"]) ∧
    parseCommand "ls -l" cfgAmb = .error "command alias is ambiguous" ∧
    parseCommand "cat f" cfgBin = .error "command must be absolute or known alias" :=
  parse_command_resolution
    cfgBin "/bin/ls -l" "/bin/ls" ["-l"] (by decide) (by decide)
    cfgAliasZfs "zfs list" "zfs" "/sbin/zfs" ["list"] (by decide) (by decide) (by decide)
    cfgBin "ls -l" "ls" "/bin/ls" ["-l"] (by decide) (by decide) (by decide) (by decide)
      (by decide) (by decide)
    cfgAmb "ls -l" "ls" ["-l"] (by decide) (by decide) (by decide) (by decide) (by decide)
    cfgBin "cat f" "cat" ["f"] (by decide) (by decide) (by decide) (by decide)

/-- C2 counterexample: "zfs list" has a non-absolute first word, yet with an
alias table mapping `zfs` to `/sbin/zfs` the scheduler accepts it — `start()`
creates a Job (resolved to `/sbin/zfs`) instead of rejecting the command with
a validation error. -/
theorem start_accepts_relative_alias :
    isAbsolute "zfs" = false ∧
    ((jobManagerStart [] cfgAliasZfs "admin" "zfs list" 7).toOption.map fun p => p.1.cmd)
      = some "/sbin/zfs" := by decide

/-- C2 (amended): `run()` rejects every empty or non-absolute command path
with a validation error, independently of the child process (so before
anything is spawned); `start()` rejects a command whose first word is
non-absolute — synchronously, creating no Job — exactly when the word is
neither a configured alias nor the basename of an allowlisted command, while
an alias or allowlist-basename match lets the command through. -/
theorem relative_command_rejection (absCmd : String) (proc : ProcBehavior)
    (limits : Limits) (hrel : isAbsolute absCmd = false)
    (jobs : JobTable) (cfg : Config) (u cmd w : String) (rest : List String) (t : Nat)
    (hw : fieldsOf cmd = w :: rest) (hwrel : isAbsolute w = false)
    (halias : cfg.aliases.lookup w = none)
    (hbase : ∀ a ∈ cfg.allowedCmds, filepathBase a ≠ w) :
    execwrapRun absCmd proc limits = .validationError "command must be absolute" ∧
    jobManagerStart jobs cfg u cmd t = .error "command must be absolute or known alias" := by
  constructor
  · unfold execwrapRun
    rw [if_pos (Or.inr (by simp [hrel]))]
  · unfold jobManagerStart
    rw [parseCommand_resolved_ok cfg cmd w rest hw hwrel halias ""
      (resolveByBase_no_match cfg.allowedCmds w "" hbase)]
    dsimp only
    rw [if_neg (by simp)]

/-- A child-process behaviour that is never consulted: clean run, no
output. -/
def quietProc : ProcBehavior :=
  { startErr := none, stdoutChunks := [], stderrChunks := [], waitErr := .noErr }

/-- Witness for `relative_command_rejection`: "zfs list" against a config
with no aliases and no matching allowlist basename. -/
theorem relative_command_rejection_witness :
    execwrapRun "zfs" quietProc { maxOutputBytes := 64, maxRuntimeSeconds := 120 }
      = .validationError "command must be absolute" ∧
    jobManagerStart [] cfgBin "admin" "zfs list" 7
      = .error "command must be absolute or known alias" :=
  relative_command_rejection "zfs" quietProc { maxOutputBytes := 64, maxRuntimeSeconds := 120 }
    (by decide) [] cfgBin "admin" "zfs list" "zfs" ["list"] 7
    (by decide) (by decide) (by decide) (by decide)

/-! Claims C4 and C6: behaviour of the three capped buffers. -/

/-- The bytes retained by the limited-read loop are exactly the prefix of
the stream that fits the remaining budget. -/
lemma readAllLimitedCore_out : ∀ (chunks : List (List Nat)) (lim : Nat) (acc : List Nat)
    (total : Nat),
    (readAllLimitedCore chunks lim acc total).1 = acc ++ chunks.flatten.take (lim - total) := by
  intro chunks
  induction chunks with
  | nil => intro lim acc total; simp [readAllLimitedCore]
  | cons c rest ih =>
    intro lim acc total
    unfold readAllLimitedCore
    by_cases h : lim < total + c.length
    · rw [if_pos h]
      have hz : lim - total - c.length = 0 := by omega
      simp only [List.flatten_cons, List.take_append_eq_append_take, hz, List.take_zero,
        List.append_nil]
    · rw [if_neg h]
      dsimp only
      rw [ih]
      have hc : c.length ≤ lim - total := by omega
      simp only [List.flatten_cons, List.take_append_eq_append_take,
        List.take_of_length_le hc, List.append_assoc]
      congr 3
      omega

/-- The truncation flag of the limited-read loop reports whether the stream
exceeded the remaining budget. -/
lemma readAllLimitedCore_trunc : ∀ (chunks : List (List Nat)) (lim : Nat) (acc : List Nat)
    (total : Nat), total ≤ lim →
    (readAllLimitedCore chunks lim acc total).2.1 = decide (lim - total < chunks.flatten.length) := by
  intro chunks
  induction chunks with
  | nil =>
    intro lim acc total h
    simp [readAllLimitedCore]
  | cons c rest ih =>
    intro lim acc total h
    unfold readAllLimitedCore
    by_cases hc : lim < total + c.length
    · rw [if_pos hc]
      have : lim - total < (c :: rest).flatten.length := by
        simp only [List.flatten_cons, List.length_append]
        omega
      exact (decide_eq_true this).symm
    · rw [if_neg hc]
      dsimp only
      rw [ih lim (acc ++ c) (total + c.length) (by omega)]
      apply decide_eq_decide.mpr
      simp only [List.flatten_cons, List.length_append]
      omega

lemma readAllLimited_out (chunks : List (List Nat)) (limit : Int) :
    (readAllLimited chunks limit).1 = chunks.flatten.take (normLimit limit).toNat := by
  unfold readAllLimited
  rw [readAllLimitedCore_out]
  simp

lemma readAllLimited_trunc (chunks : List (List Nat)) (limit : Int) :
    (readAllLimited chunks limit).2.1 = decide ((normLimit limit).toNat < chunks.flatten.length) := by
  unfold readAllLimited
  rw [readAllLimitedCore_trunc chunks _ [] 0 (Nat.zero_le _)]
  simp

lemma normLimit_pos (limit : Int) : 0 < normLimit limit := by
  unfold normLimit defaultOutputLimit
  split <;> omega

lemma normLimit_idem (limit : Int) : normLimit (normLimit limit) = normLimit limit := by
  unfold normLimit defaultOutputLimit
  split <;> simp_all

/-- Invariant maintained by every `limitedBuffer`: the retained content
never exceeds the (normalised) limit, and once the truncation flag is set
the buffer is exactly full. -/
def LBInv (l : LimitedBuffer) : Prop :=
  (l.buf.length : Int) ≤ normLimit l.limit ∧
  (l.truncated = true → (l.buf.length : Int) = normLimit l.limit)

/-- A write that fits while the buffer is below its limit is fully retained
and leaves the truncation flag unchanged. -/
lemma lb_write_fits (l : LimitedBuffer) (p : List Nat)
    (hlt : (l.buf.length : Int) < normLimit l.limit)
    (hfit : (l.buf.length : Int) + p.length ≤ normLimit l.limit) :
    (limitedBufferWrite l p).buf = l.buf ++ p ∧
    (limitedBufferWrite l p).truncated = l.truncated := by
  simp only [limitedBufferWrite]
  rw [if_neg (by omega), if_neg (by omega)]
  exact ⟨rfl, rfl⟩

/-- The first write that would exceed the limit retains exactly the prefix
that fits and sets the truncation flag. -/
lemma lb_write_exceed (l : LimitedBuffer) (p : List Nat)
    (hinv : LBInv l)
    (hex : normLimit l.limit < (l.buf.length : Int) + p.length) :
    (limitedBufferWrite l p).buf
      = l.buf ++ p.take ((normLimit l.limit).toNat - l.buf.length) ∧
    (limitedBufferWrite l p).truncated = true := by
  simp only [limitedBufferWrite]
  by_cases hfull : (l.buf.length : Int) ≥ normLimit l.limit
  · rw [if_pos hfull]
    have hz : (normLimit l.limit).toNat - l.buf.length = 0 := by
      have := hinv.1
      omega
    simp [hz]
  · rw [if_neg hfull, if_pos (by omega)]
    have hre : (normLimit l.limit - (l.buf.length : Int)).toNat
        = (normLimit l.limit).toNat - l.buf.length := by omega
    rw [hre]
    exact ⟨rfl, rfl⟩

/-- After truncation, a write retains nothing and the flag stays set. -/
lemma lb_write_after (l : LimitedBuffer) (p : List Nat)
    (hinv : LBInv l) (ht : l.truncated = true) :
    (limitedBufferWrite l p).buf = l.buf ∧
    (limitedBufferWrite l p).truncated = true := by
  simp only [limitedBufferWrite]
  rw [if_pos (le_of_eq (hinv.2 ht).symm)]
  exact ⟨rfl, rfl⟩

/-- Every write preserves the buffer invariant. -/
lemma lb_inv_step (l : LimitedBuffer) (p : List Nat) (hinv : LBInv l) :
    LBInv (limitedBufferWrite l p) := by
  obtain ⟨h1, h2⟩ := hinv
  simp only [limitedBufferWrite]
  by_cases hfull : (l.buf.length : Int) ≥ normLimit l.limit
  · rw [if_pos hfull]
    refine ⟨?_, fun _ => ?_⟩ <;> simp only [normLimit_idem] <;> omega
  · rw [if_neg hfull]
    by_cases hov : (normLimit l.limit - (l.buf.length : Int)).toNat < p.length
    · rw [if_pos hov]
      constructor
      · simp only [List.length_append, normLimit_idem, List.length_take]
        push_cast
        omega
      · intro _
        simp only [List.length_append, normLimit_idem, List.length_take]
        push_cast
        omega
    · rw [if_neg hov]
      constructor
      · simp only [List.length_append, normLimit_idem]
        push_cast
        omega
      · intro ht
        have := h2 ht
        simp only [List.length_append, normLimit_idem]
        push_cast
        omega

/-- Once truncated, any sequence of later writes retains nothing and the
flag remains set for the buffer's lifetime. -/
lemma lb_trunc_forever (ps : List (List Nat)) : ∀ (l : LimitedBuffer),
    LBInv l → l.truncated = true →
    (ps.foldl limitedBufferWrite l).buf = l.buf ∧
    (ps.foldl limitedBufferWrite l).truncated = true := by
  induction ps with
  | nil => intro l _ ht; exact ⟨rfl, ht⟩
  | cons p rest ih =>
    intro l hinv ht
    have hstep := lb_write_after l p hinv ht
    have hinv' := lb_inv_step l p hinv
    simp only [List.foldl_cons]
    obtain ⟨hb, htr⟩ := ih (limitedBufferWrite l p) hinv' hstep.2
    exact ⟨hb.trans hstep.1, htr⟩

/-- Invariant maintained by a Job's output buffer: the retained content
never exceeds the limit, and once the truncation flag is set the buffer is
exactly full. -/
def JBInv (j : JobBuf) : Prop :=
  (j.buffer.length : Int) ≤ jobLimit j.limit ∧
  (j.truncated = true → (j.buffer.length : Int) = jobLimit j.limit)

/-- A chunk that fits is fully retained (buffer and published snapshot) and
leaves the truncation flag unchanged. -/
lemma ja_append_fits (j : JobBuf) (c : List Nat)
    (hfit : (j.buffer.length : Int) + c.length ≤ jobLimit j.limit) :
    (jobAppend j c).buffer = j.buffer ++ c ∧
    (jobAppend j c).output = j.buffer ++ c ∧
    (jobAppend j c).truncated = j.truncated := by
  simp only [jobAppend]
  rw [if_neg (by omega)]
  exact ⟨rfl, rfl, rfl⟩

/-- The first chunk that would exceed the limit retains exactly the prefix
that fits and sets the truncation flag. -/
lemma ja_append_exceed (j : JobBuf) (c : List Nat) (hinv : JBInv j)
    (hex : jobLimit j.limit < (j.buffer.length : Int) + c.length) :
    (jobAppend j c).buffer = j.buffer ++ c.take ((jobLimit j.limit).toNat - j.buffer.length) ∧
    (jobAppend j c).truncated = true := by
  simp only [jobAppend]
  rw [if_pos (by omega)]
  by_cases hrem : (0 : Int) < jobLimit j.limit - j.buffer.length
  · rw [if_pos hrem]
    have hre : (jobLimit j.limit - (j.buffer.length : Int)).toNat
        = (jobLimit j.limit).toNat - j.buffer.length := by omega
    rw [hre]
    exact ⟨rfl, rfl⟩
  · rw [if_neg hrem]
    have hz : (jobLimit j.limit).toNat - j.buffer.length = 0 := by
      have := hinv.1
      omega
    simp [hz]

/-- After truncation, a chunk retains nothing and the flag stays set. -/
lemma ja_append_after (j : JobBuf) (c : List Nat) (hinv : JBInv j)
    (ht : j.truncated = true) :
    (jobAppend j c).buffer = j.buffer ∧ (jobAppend j c).truncated = true := by
  have hfull := hinv.2 ht
  simp only [jobAppend]
  by_cases hc : jobLimit j.limit < (j.buffer.length : Int) + c.length
  · rw [if_pos hc, if_neg (by omega)]
    exact ⟨rfl, rfl⟩
  · rw [if_neg hc]
    have hcz : c.length = 0 := by omega
    refine ⟨?_, ht⟩
    simp [List.length_eq_zero.mp hcz]

/-- Every append preserves the Job-buffer invariant. -/
lemma ja_inv_step (j : JobBuf) (c : List Nat) (hinv : JBInv j) :
    JBInv (jobAppend j c) := by
  obtain ⟨h1, h2⟩ := hinv
  simp only [jobAppend]
  by_cases hc : jobLimit j.limit < (j.buffer.length : Int) + c.length
  · rw [if_pos hc]
    by_cases hrem : (0 : Int) < jobLimit j.limit - j.buffer.length
    · rw [if_pos hrem]
      constructor
      · simp only [List.length_append, List.length_take]
        push_cast
        omega
      · intro _
        simp only [List.length_append, List.length_take]
        push_cast
        omega
    · rw [if_neg hrem]
      refine ⟨?_, fun _ => ?_⟩ <;> dsimp only <;> omega
  · rw [if_neg hc]
    constructor
    · simp only [List.length_append]
      push_cast
      omega
    · intro ht
      have := h2 ht
      simp only [List.length_append]
      push_cast
      omega

/-- Once truncated, any sequence of later appends retains nothing and the
flag remains set for the Job's lifetime. -/
lemma ja_trunc_forever (cs : List (List Nat)) : ∀ (j : JobBuf),
    JBInv j → j.truncated = true →
    (cs.foldl jobAppend j).buffer = j.buffer ∧
    (cs.foldl jobAppend j).truncated = true := by
  induction cs with
  | nil => intro j _ ht; exact ⟨rfl, ht⟩
  | cons c rest ih =>
    intro j hinv ht
    have hstep := ja_append_after j c hinv ht
    have hinv' := ja_inv_step j c hinv
    simp only [List.foldl_cons]
    obtain ⟨hb, htr⟩ := ih (jobAppend j c) hinv' hstep.2
    exact ⟨hb.trans hstep.1, htr⟩

/-- C4: capped-buffer contract for all three capped sinks in the engine —
the pipeline's shared stderr `limitedBuffer`, a Job's output buffer, and the
runner's limited reader.  While retained content is below the limit a
fitting chunk is fully retained with the flag unchanged; the first append
that would exceed the limit retains exactly the prefix that fits and sets
the flag; once the flag is set, any sequence of later appends retains
nothing and the flag stays set; and the limited reader retains exactly the
prefix of the stream that fits its cap, flagging truncation iff the stream
was longer. -/
theorem capped_buffer_invariants
    (l₁ : LimitedBuffer) (p₁ : List Nat)
    (h₁a : (l₁.buf.length : Int) < normLimit l₁.limit)
    (h₁b : (l₁.buf.length : Int) + p₁.length ≤ normLimit l₁.limit)
    (l₂ : LimitedBuffer) (p₂ : List Nat) (h₂a : LBInv l₂)
    (h₂b : normLimit l₂.limit < (l₂.buf.length : Int) + p₂.length)
    (l₃ : LimitedBuffer) (ps₃ : List (List Nat)) (h₃a : LBInv l₃) (h₃b : l₃.truncated = true)
    (j₁ : JobBuf) (c₁ : List Nat)
    (h₄ : (j₁.buffer.length : Int) + c₁.length ≤ jobLimit j₁.limit)
    (j₂ : JobBuf) (c₂ : List Nat) (h₅a : JBInv j₂)
    (h₅b : jobLimit j₂.limit < (j₂.buffer.length : Int) + c₂.length)
    (j₃ : JobBuf) (cs₃ : List (List Nat)) (h₆a : JBInv j₃) (h₆b : j₃.truncated = true)
    (chunks : List (List Nat)) (limit : Int) :
    ((limitedBufferWrite l₁ p₁).buf = l₁.buf ++ p₁ ∧
      (limitedBufferWrite l₁ p₁).truncated = l₁.truncated) ∧
    ((limitedBufferWrite l₂ p₂).buf
        = l₂.buf ++ p₂.take ((normLimit l₂.limit).toNat - l₂.buf.length) ∧
      (limitedBufferWrite l₂ p₂).truncated = true) ∧
    ((ps₃.foldl limitedBufferWrite l₃).buf = l₃.buf ∧
      (ps₃.foldl limitedBufferWrite l₃).truncated = true) ∧
    ((jobAppend j₁ c₁).buffer = j₁.buffer ++ c₁ ∧
      (jobAppend j₁ c₁).output = j₁.buffer ++ c₁ ∧
      (jobAppend j₁ c₁).truncated = j₁.truncated) ∧
    ((jobAppend j₂ c₂).buffer
        = j₂.buffer ++ c₂.take ((jobLimit j₂.limit).toNat - j₂.buffer.length) ∧
      (jobAppend j₂ c₂).truncated = true) ∧
    ((cs₃.foldl jobAppend j₃).buffer = j₃.buffer ∧
      (cs₃.foldl jobAppend j₃).truncated = true) ∧
    ((readAllLimited chunks limit).1 = chunks.flatten.take (normLimit limit).toNat ∧
      (readAllLimited chunks limit).2.1
        = decide ((normLimit limit).toNat < chunks.flatten.length)) :=
  ⟨lb_write_fits l₁ p₁ h₁a h₁b, lb_write_exceed l₂ p₂ h₂a h₂b,
   lb_trunc_forever ps₃ l₃ h₃a h₃b, ja_append_fits j₁ c₁ h₄,
   ja_append_exceed j₂ c₂ h₅a h₅b, ja_trunc_forever cs₃ j₃ h₆a h₆b,
   readAllLimited_out chunks limit, readAllLimited_trunc chunks limit⟩

/-- Fresh 4-byte pipeline stderr buffer holding one byte. -/
def lbFresh : LimitedBuffer := { buf := [1], limit := 4, truncated := false }

/-- Full, truncated 4-byte pipeline stderr buffer. -/
def lbFull : LimitedBuffer := { buf := [1, 2, 3, 4], limit := 4, truncated := true }

/-- Fresh 4-byte Job buffer holding one byte. -/
def jbFresh : JobBuf := { buffer := [1], output := [1], truncated := false, limit := 4 }

/-- Full, truncated 4-byte Job buffer. -/
def jbFull : JobBuf := { buffer := [1, 2, 3, 4], output := [1, 2, 3, 4], truncated := true
                         limit := 4 }

/-- Witness for `capped_buffer_invariants` on 4-byte buffers and a 3-byte
read cap. -/
theorem capped_buffer_invariants_witness :
    ((limitedBufferWrite lbFresh [2, 3]).buf = lbFresh.buf ++ [2, 3] ∧
      (limitedBufferWrite lbFresh [2, 3]).truncated = lbFresh.truncated) ∧
    ((limitedBufferWrite lbFresh [2, 3, 4, 5]).buf
        = lbFresh.buf ++ [2, 3, 4, 5].take ((normLimit lbFresh.limit).toNat - lbFresh.buf.length) ∧
      (limitedBufferWrite lbFresh [2, 3, 4, 5]).truncated = true) ∧
    (([[9], [8]].foldl limitedBufferWrite lbFull).buf = lbFull.buf ∧
      ([[9], [8]].foldl limitedBufferWrite lbFull).truncated = true) ∧
    ((jobAppend jbFresh [2, 3]).buffer = jbFresh.buffer ++ [2, 3] ∧
      (jobAppend jbFresh [2, 3]).output = jbFresh.buffer ++ [2, 3] ∧
      (jobAppend jbFresh [2, 3]).truncated = jbFresh.truncated) ∧
    ((jobAppend jbFresh [2, 3, 4, 5]).buffer
        = jbFresh.buffer ++ [2, 3, 4, 5].take ((jobLimit jbFresh.limit).toNat - jbFresh.buffer.length) ∧
      (jobAppend jbFresh [2, 3, 4, 5]).truncated = true) ∧
    (([[9], [8]].foldl jobAppend jbFull).buffer = jbFull.buffer ∧
      ([[9], [8]].foldl jobAppend jbFull).truncated = true) ∧
    ((readAllLimited [[1, 2], [3, 4]] 3).1 = [[1, 2], [3, 4]].flatten.take (normLimit 3).toNat ∧
      (readAllLimited [[1, 2], [3, 4]] 3).2.1
        = decide ((normLimit 3).toNat < [[1, 2], [3, 4]].flatten.length)) :=
  capped_buffer_invariants lbFresh [2, 3] (by decide) (by decide)
    lbFresh [2, 3, 4, 5] (by unfold LBInv; decide) (by decide)
    lbFull [[9], [8]] (by unfold LBInv; decide) (by decide)
    jbFresh [2, 3] (by decide)
    jbFresh [2, 3, 4, 5] (by unfold JBInv; decide) (by decide)
    jbFull [[9], [8]] (by unfold JBInv; decide) (by decide)
    [[1, 2], [3, 4]] 3

/-- C6: for `run()` on an absolute command with a positive cap, a process
whose total output on each stream is strictly below the cap yields the exact
stdout and stderr bytes, the process's real exit code, and
`truncated = false`; a process producing `cap + k` bytes (k > 0) on its
stdout stream yields a captured stdout of exactly `cap` bytes with
`truncated = true`. -/
theorem run_output_capture (absCmd : String) (limits : Limits)
    (habs : isAbsolute absCmd = true) (hcap : 0 < limits.maxOutputBytes)
    (pBelow : ProcBehavior) (hbs : pBelow.startErr = none) (c : Int)
    (hexit : pBelow.waitErr = .noErr ∧ c = 0 ∨ pBelow.waitErr = .exitError c)
    (hout : pBelow.stdoutChunks.flatten.length < limits.maxOutputBytes.toNat)
    (herr : pBelow.stderrChunks.flatten.length < limits.maxOutputBytes.toNat)
    (pOver : ProcBehavior) (hos : pOver.startErr = none) (k : Nat) (hk : 0 < k)
    (hover : pOver.stdoutChunks.flatten.length = limits.maxOutputBytes.toNat + k) :
    execwrapRun absCmd pBelow limits = .completed
      { stdout := pBelow.stdoutChunks.flatten, stderr := pBelow.stderrChunks.flatten
        exitCode := c, truncated := false } ∧
    ∃ r, execwrapRun absCmd pOver limits = .completed r ∧
      r.stdout.length = limits.maxOutputBytes.toNat ∧ r.truncated = true := by
  have hnz : ¬absCmd = "" := by
    intro hc
    rw [hc] at habs
    exact absurd habs (by decide)
  have hnorm : normLimit limits.maxOutputBytes = limits.maxOutputBytes := by
    unfold normLimit
    rw [if_neg (by omega)]
  constructor
  · unfold execwrapRun
    rw [if_neg (by simp [habs, hnz]), hbs]
    dsimp only
    have h1 : (readAllLimited pBelow.stdoutChunks limits.maxOutputBytes).1
        = pBelow.stdoutChunks.flatten := by
      rw [readAllLimited_out, hnorm]
      exact List.take_of_length_le (le_of_lt hout)
    have h2 : (readAllLimited pBelow.stderrChunks limits.maxOutputBytes).1
        = pBelow.stderrChunks.flatten := by
      rw [readAllLimited_out, hnorm]
      exact List.take_of_length_le (le_of_lt herr)
    have h3 : (readAllLimited pBelow.stdoutChunks limits.maxOutputBytes).2.1 = false := by
      rw [readAllLimited_trunc, hnorm]
      exact decide_eq_false (by omega)
    have h4 : (readAllLimited pBelow.stderrChunks limits.maxOutputBytes).2.1 = false := by
      rw [readAllLimited_trunc, hnorm]
      exact decide_eq_false (by omega)
    have h5 : runWaitExitCode pBelow.waitErr = c := by
      rcases hexit with ⟨hw, rfl⟩ | hw <;> rw [hw] <;> rfl
    rw [h1, h2, h3, h4, h5]
    rfl
  · unfold execwrapRun
    rw [if_neg (by simp [habs, hnz]), hos]
    dsimp only
    refine ⟨_, rfl, ?_, ?_⟩
    · rw [readAllLimited_out, hnorm, List.length_take, hover]
      omega
    · have h6 : (readAllLimited pOver.stdoutChunks limits.maxOutputBytes).2.1 = true := by
        rw [readAllLimited_trunc, hnorm]
        exact decide_eq_true (by omega)
      rw [h6]
      rfl

/-- Quiet child exiting 7 with one byte on each stream, under cap 2. -/
def pBelowEx : ProcBehavior :=
  { startErr := none, stdoutChunks := [[1]], stderrChunks := [[2]], waitErr := .exitError 7 }

/-- Child writing 3 stdout bytes under cap 2 (one byte over). -/
def pOverEx : ProcBehavior :=
  { startErr := none, stdoutChunks := [[1, 2, 3]], stderrChunks := [], waitErr := .noErr }

/-- Witness for `run_output_capture` with cap 2. -/
theorem run_output_capture_witness :
    execwrapRun "/sbin/zfs" pBelowEx { maxOutputBytes := 2, maxRuntimeSeconds := 120 }
      = .completed { stdout := pBelowEx.stdoutChunks.flatten
                     stderr := pBelowEx.stderrChunks.flatten
                     exitCode := 7, truncated := false } ∧
    ∃ r, execwrapRun "/sbin/zfs" pOverEx { maxOutputBytes := 2, maxRuntimeSeconds := 120 }
        = .completed r ∧
      r.stdout.length = (2 : Int).toNat ∧ r.truncated = true :=
  run_output_capture "/sbin/zfs" { maxOutputBytes := 2, maxRuntimeSeconds := 120 }
    (by decide) (by decide) pBelowEx (by decide) 7 (Or.inr (by decide))
    (by decide) (by decide) pOverEx (by decide) 1 (by decide) (by decide)

end RaidRaccoon
